import Mathlib

/-!
Verification development for the object-runner orchestration core
(`checkov/common/runners/object_runner.py`): a shallow embedding of the
file-loading, result-to-finding transformation and structural-extraction
(jobs/triggers) logic, together with theorems settling the specification
claims about it.

Python-level conventions embedded here:
  - a dict is an insertion-ordered association list; item assignment
    overwrites in place or appends at the end; subscript lookup of a
    missing key raises KeyError;
  - `.get` on a non-dict raises AttributeError (exceptions are modelled
    with `Except String`);
  - truthiness follows Python (`None`, `False`, `0`, empty string, empty
    list, empty dict are falsy);
  - list slicing `l[a:b]` follows Python semantics, including negative
    indices counting from the end and clamping at the bounds.
-/

namespace ObjectRunner

/-- Keys of a parsed document mapping: strings, or booleans (the document
format uses the boolean key `true` for the always-on trigger mapping). -/
inductive PyKey where
  | str (s : String)
  | bool (b : Bool)
deriving DecidableEq

/-- Python-style values appearing in parsed documents. A dict is an
insertion-ordered association list of key-value pairs. -/
inductive PyVal where
  | none
  | bool (b : Bool)
  | int (n : Int)
  | str (s : String)
  | list (xs : List PyVal)
  | dict (entries : List (PyKey × PyVal))

/-- Python truthiness of a value. -/
def pyTruthy : PyVal → Bool
  | .none => false
  | .bool b => b
  | .int n => n != 0
  | .str s => s != ""
  | .list xs => !xs.isEmpty
  | .dict es => !es.isEmpty

/-- First binding of a key in an association list (Python dict lookup). -/
def pyLookup (es : List (PyKey × PyVal)) (k : PyKey) : Option PyVal :=
  match es with
  | [] => Option.none
  | (k', v) :: rest => if k' = k then some v else pyLookup rest k

/-- The `.get` method: returns the bound value or `None` on a dict, raises
AttributeError on every other value. -/
def pyGetMethod (v : PyVal) (k : PyKey) : Except String PyVal :=
  match v with
  | .dict es => .ok ((pyLookup es k).getD .none)
  | _ => .error "AttributeError"

/-- Python dict item assignment `d[k] = v`: overwrite in place if the key is
present, otherwise append at the end. -/
def pyDictSet {κ α : Type} [DecidableEq κ] (d : List (κ × α)) (k : κ) (v : α) :
    List (κ × α) :=
  match d with
  | [] => [(k, v)]
  | (k', v') :: rest =>
    if k' = k then (k, v) :: rest else (k', v') :: pyDictSet rest k v

/-- Python update of an existing entry, `f` applied to `d[k]`: raises
KeyError when the key is absent. -/
def pyDictUpdate {κ α : Type} [DecidableEq κ] (d : List (κ × α)) (k : κ)
    (f : α → α) : Except String (List (κ × α)) :=
  match d with
  | [] => .error "KeyError"
  | (k', v') :: rest =>
    if k' = k then .ok ((k', f v') :: rest)
    else
      match pyDictUpdate rest k f with
      | .ok rest' => .ok ((k', v') :: rest')
      | .error e => .error e

/-- `checkov.common.util.consts.START_LINE`. -/
def START_LINE : String := "__startline__"

/-- `checkov.common.util.consts.END_LINE`. -/
def END_LINE : String := "__endline__"

/-- Whether a key is one of the two reserved line-marker keys. -/
def isMarker (k : PyKey) : Bool :=
  k = PyKey.str START_LINE || k = PyKey.str END_LINE

/-- String carried by a (marker) key. -/
def markerName : PyKey → String
  | .str s => s
  | .bool _ => ""

/-- The body of the `try` block of `_get_triggers`: if the looked-up value
is truthy, take its keys minus the two line markers (raising AttributeError
when a truthy non-dict has no `.keys`); a falsy value leaves the set empty. -/
def triggersDerive (triggers : PyVal) : Except String (Finset PyKey) :=
  if pyTruthy triggers then
    match triggers with
    | .dict es => .ok (((es.map Prod.fst).filter (fun k => !isMarker k)).toFinset)
    | _ => .error "AttributeError"
  else .ok ∅

/-- `Runner._get_triggers`, applied to the parsed document `result[0]`.
The lookup `result[0].get(True)` happens before the `try` block, so only
the derivation step has its exceptions caught (they degrade to the empty
set). -/
def get_triggers (doc : PyVal) : Except String (Finset PyKey) := do
  let triggers ← pyGetMethod doc (.bool true)
  match triggersDerive triggers with
  | .ok s => pure s
  | .error _ => pure ∅

/-- Accumulator type of `_get_jobs`: job name to attribute bag (line-marker
values only). -/
abbrev JobsDict := List (PyKey × List (String × PyVal))

/-- The loop of `_get_jobs` over `jobs.items()`: a non-marker key starts a
new named unit and becomes the cursor `tmp_key`; a marker key is written
into the attribute bag of `jobs_dict[tmp_key]` (KeyError when that unit
does not exist, e.g. for the initial empty cursor). -/
def jobsLoop : List (PyKey × PyVal) → JobsDict → PyKey → Except String JobsDict
  | [], acc, _ => .ok acc
  | (key, value) :: rest, acc, tmp_key =>
    if !isMarker key then
      jobsLoop rest (pyDictSet acc key []) key
    else
      match pyDictUpdate acc tmp_key (fun attrs => pyDictSet attrs (markerName key) value) with
      | .ok acc' => jobsLoop rest acc' tmp_key
      | .error e => .error e

/-- `Runner._get_jobs`, applied to the parsed document `result[0]`. -/
def get_jobs (doc : PyVal) : Except String JobsDict := do
  let jobs ← pyGetMethod doc (.str "jobs")
  if pyTruthy jobs then
    match jobs with
    | .dict es => jobsLoop es [] (.str "")
    | _ => .error "AttributeError"
  else pure []

deriving instance DecidableEq for Except

/-- The jobs mapping of the C4 scenario: two named units with interleaved
line markers. -/
def sampleJobs : List (PyKey × PyVal) :=
  [(.str "build", .dict []), (.str START_LINE, .int 3), (.str END_LINE, .int 5),
   (.str "test", .dict []), (.str START_LINE, .int 7), (.str END_LINE, .int 9)]

/-- A raw source line as produced by the parser: (1-based line number, text). -/
abbrev RawLine := Int × String

/-- A successful parse: (parsed document, raw lines). -/
abbrev ParseResult := PyVal × List RawLine

/-- Check identity carried by a raw check result. -/
structure CheckInfo where
  id : String
  bc_id : Option String
  name : String
  supported_entities : List String
  class_module : String
  severity : Option String

/-- A raw result from the registry scan: the location substructure, the
optional check object, and the remaining outcome payload. -/
structure RawResult where
  results_configuration : PyVal
  check : Option CheckInfo
  payload : PyVal

/-- Python slice index normalization for one bound of `l[a:b]`: negative
indices count from the end, and both bounds clamp to the available range. -/
def pySliceIdx (n : Nat) (i : Int) : Nat :=
  if i < 0 then ((n : Int) + i).toNat else min i.toNat n

/-- Python list slice `l[a:b]` (step 1). -/
def pySlice {α : Type} (l : List α) (a b : Int) : List α :=
  (l.take (pySliceIdx l.length b)).drop (pySliceIdx l.length a)

/-- The external collaborators of the orchestrator, fixed for one run: the
per-file parser, the registry scan operation (with any configured external
checks already loaded), the suppression collector, the per-family line
resolver `get_start_end_lines`, the path helpers of the host platform, and
the directory walk with its exclusion filtering already applied. -/
structure Env where
  parse : String → Option ParseResult
  scan : String → PyVal → List String → List (String × RawResult)
  suppressions : List RawLine → List String
  getStartEnd : Int → PyVal → Int → Int × Int
  relpath : String → Option String → String
  abspath : String → String
  joinPath : String → String → String
  splitHead : String → String
  isWindows : Bool
  walkFiles : String → List (String × List String)

/-- A normalized finding record (the Record fields populated by `run`). -/
structure Record where
  check_id : String
  bc_check_id : Option String
  check_name : String
  check_result : PyVal
  code_block : List RawLine
  file_path : String
  file_line_range : Int × Int
  resource : String
  check_class : String
  file_abs_path : String
  severity : Option String

/-- `CheckType.GITHUB_ACTIONS`. -/
def GITHUB_ACTIONS : String := "github_actions"

/-- The transient run metadata recorded by the loader for the
github_actions family; the initial values match the constructor defaults
of `Runner`. -/
structure GhaMeta where
  workflow_name : PyVal
  jobs : Option JobsDict
  triggers : Option (Finset PyKey)

/-- Metadata before any file has been loaded. -/
def initMeta : GhaMeta := ⟨.none, Option.none, Option.none⟩

/-- A record as appended to the report: plain, or wrapped as a
GithubActionsRecord together with the run metadata. -/
inductive ReportRecord where
  | plain (r : Record)
  | gha (r : Record) (jobs : Option JobsDict) (triggers : Option (Finset PyKey))
      (workflow_name : PyVal)

/-- The underlying record of a report entry. -/
def ReportRecord.base : ReportRecord → Record
  | .plain r => r
  | .gha r _ _ _ => r

/-- The report: a document-family tag and the ordered findings. -/
structure Report where
  check_type : String
  records : List ReportRecord

/-- `Runner.get_resource` (base implementation). -/
def get_resource (file_path : String) (key : String)
    (_supported_entities : List String) : String :=
  file_path ++ "." ++ key

/-- One iteration of the result loop of `Runner.run`: resolve the line
range (the `(0, 0)` fallback when the result configuration is falsy),
apply the Windows root rebasing, and build the Record; a result without a
check object yields no record and leaves the root unchanged. -/
def build_record (env : Env) (file_path : String) (raw : List RawLine)
    (root_folder : Option String) (key : String) (result : RawResult) :
    Option Record × Option String :=
  match result.check with
  | Option.none => (Option.none, root_folder)
  | some check =>
    let se :=
      if pyTruthy result.results_configuration then
        env.getStartEnd 0 result.results_configuration 0
      else (0, 0)
    let start := se.2
    let endline := se.1
    let root := if env.isWindows then some (env.splitHead file_path) else root_folder
    (some {
      check_id := check.id
      bc_check_id := check.bc_id
      check_name := check.name
      check_result := result.payload
      code_block := pySlice raw (start - 1) (endline + 1)
      file_path := "/" ++ env.relpath file_path root
      file_line_range := (start, endline + 1)
      resource := get_resource file_path key check.supported_entities
      check_class := check.class_module
      file_abs_path := env.abspath file_path
      severity := check.severity
    }, root)

/-- The per-file result loop of `Runner.run`: build records for all scan
results of one file in order, dropping results without a check, threading
the (possibly rebased) root folder, and wrapping each record with the run
metadata for the github_actions family. -/
def scan_file (env : Env) (check_type : String) (meta : GhaMeta)
    (file_path : String) (raw : List RawLine) (root_folder : Option String) :
    List (String × RawResult) → List ReportRecord × Option String
  | [] => ([], root_folder)
  | (key, result) :: rest =>
    match build_record env file_path raw root_folder key result with
    | (Option.none, root') => scan_file env check_type meta file_path raw root' rest
    | (some r, root') =>
      let rr := if check_type = GITHUB_ACTIONS then
          ReportRecord.gha r meta.jobs meta.triggers meta.workflow_name
        else ReportRecord.plain r
      let out := scan_file env check_type meta file_path raw root' rest
      (rr :: out.1, out.2)

/-- Loader state: the two per-file output associations of `_load_files`
(document and raw lines are stored under the same key in the same
statement in the source, kept here as one association of path to parse
result) plus the transient run metadata. -/
structure LoadState where
  definitions : List (String × ParseResult)
  meta : GhaMeta

/-- Processing of one successfully parsed file inside `_load_files`: store
the parse result under its path and, for the github_actions family, record
the run metadata extracted from this document. -/
def processParsed (check_type : String) (st : LoadState) (file : String)
    (res : ParseResult) : Except String LoadState := do
  let st' : LoadState := { st with definitions := pyDictSet st.definitions file res }
  if check_type = GITHUB_ACTIONS then
    let nm ← pyGetMethod res.1 (.str "name")
    let js ← get_jobs res.1
    let tr ← get_triggers res.1
    pure { st' with meta := ⟨nm, some js, some tr⟩ }
  else pure st'

/-- The loop of `_load_files` over the parallel-parse results: a failed
parse is skipped, a successful one is processed. -/
def load_loop (check_type : String) :
    List (String × Option ParseResult) → LoadState → Except String LoadState
  | [], st => .ok st
  | (_, Option.none) :: rest, st => load_loop check_type rest st
  | (file, some res) :: rest, st => do
    let st' ← processParsed check_type st file res
    load_loop check_type rest st'

/-- A completion order of one parallel-parse phase: the order in which the
results of the dispatched parse calls come back. The parallel runner
guarantees nothing beyond delivering every result, so a schedule is
meaningful when it permutes its input. -/
abbrev Schedule :=
  List (String × Option ParseResult) → List (String × Option ParseResult)

/-- The optional filename transform of `_load_files`. -/
def applyFn (filename_fn : Option (String → String)) (f : String) : String :=
  match filename_fn with
  | some g => g f
  | Option.none => f

/-- The parallel-parse results of `_load_files`: the filename transform is
applied, every file is parsed, and the completion order of the parallel
runner is `sched`. -/
def loadResults (sched : Schedule) (env : Env) (files_to_load : List String)
    (filename_fn : Option (String → String)) :
    List (String × Option ParseResult) :=
  let files := files_to_load.map (applyFn filename_fn)
  sched (files.map (fun f => (f, env.parse f)))

/-- `Runner._load_files`: fold the parallel-parse results into the loader
state. -/
def load_files (sched : Schedule) (env : Env) (check_type : String)
    (files_to_load : List String) (st : LoadState)
    (filename_fn : Option (String → String)) :
    Except String LoadState :=
  load_loop check_type (loadResults sched env files_to_load filename_fn) st

/-- Truthiness of an optional string (absent and empty are falsy). -/
def optStrTruthy : Option String → Bool
  | Option.none => false
  | some s => s != ""

/-- Truthiness of a list (empty is falsy). -/
def listTruthy {α : Type} (l : List α) : Bool := !l.isEmpty

/-- The load phase of `Runner.run`: the explicit file list first, then the
directory walk, each directory loaded with the join-to-root filename
transform. -/
def loadPhase (sched : Schedule) (env : Env) (check_type : String)
    (root_folder : Option String) (files : List String) :
    Except String LoadState := do
  let st0 : LoadState := ⟨[], initMeta⟩
  let st1 ← if listTruthy files then
      load_files sched env check_type files st0 Option.none
    else pure st0
  if optStrTruthy root_folder then
    match root_folder with
    | some root =>
      (env.walkFiles root).foldlM
        (fun st' rf =>
          load_files sched env check_type rf.2 st' (some (env.joinPath rf.1))) st1
    | Option.none => pure st1
  else pure st1

/-- The scan phase of `Runner.run`: for every loaded file in order, collect
the suppressions from the raw lines, scan with the registry, and run the
result loop, threading the root folder across files. -/
def scanPhase (env : Env) (check_type : String) (meta : GhaMeta) :
    Option String → List (String × ParseResult) → List ReportRecord
  | _, [] => []
  | root_folder, (fp, res) :: rest =>
    let skipped := env.suppressions res.2
    let results := env.scan fp res.1 skipped
    let out := scan_file env check_type meta fp res.2 root_folder results
    out.1 ++ scanPhase env check_type meta out.2 rest

/-- `Runner.run`: the configuration guards, then the load phase, then the
scan phase producing the report. -/
def run (sched : Schedule) (env : Env) (check_type : String)
    (require_external : Bool) (root_folder : Option String)
    (external_checks_dir : List String) (files : List String) :
    Except String Report :=
  if !listTruthy files && !optStrTruthy root_folder then
    .ok ⟨check_type, []⟩
  else if !listTruthy external_checks_dir && require_external then
    .ok ⟨check_type, []⟩
  else
    match loadPhase sched env check_type root_folder files with
    | .error e => .error e
    | .ok st =>
      .ok ⟨check_type, scanPhase env check_type st.meta root_folder st.definitions⟩

/-- A neutral environment for concrete scenarios; individual fields are
overridden per scenario. -/
def baseEnv : Env where
  parse := fun _ => Option.none
  scan := fun _ _ _ => []
  suppressions := fun _ => []
  getStartEnd := fun e _ s => (e, s)
  relpath := fun p _ => p
  abspath := fun p => p
  joinPath := fun a b => a ++ "/" ++ b
  splitHead := fun _ => ""
  isWindows := false
  walkFiles := fun _ => []

/-- Seven raw lines, index-aligned with 1-based source line numbers. -/
def rawSeven : List RawLine :=
  [(1, "a"), (2, "b"), (3, "c"), (4, "d"), (5, "e"), (6, "f"), (7, "g")]

/-- A sample check identity. -/
def sampleCheck : CheckInfo :=
  ⟨"CKV_X_1", Option.none, "sample check", [], "module", Option.none⟩

/-- A raw result with a truthy location substructure. -/
def resWithCfg : RawResult := ⟨.dict [(.str "start", .int 4)], some sampleCheck, .none⟩

/-- A raw result with no location substructure. -/
def resNoCfg : RawResult := ⟨.none, some sampleCheck, .none⟩

/-- A raw result without a resolvable check object. -/
def resNoCheck : RawResult := ⟨.none, Option.none, .none⟩

/-- Environment whose line resolver yields start 4, end 6. -/
def envFourSix : Env := { baseEnv with getStartEnd := fun _ _ _ => (6, 4) }

/-- A pipeline document named A. -/
def docA : PyVal := .dict [(.str "name", .str "A")]

/-- A pipeline document named B. -/
def docB : PyVal := .dict [(.str "name", .str "B")]

/-- Environment in which the files a and b parse to the documents named A
and B. -/
def envTwoDocs : Env :=
  { baseEnv with parse := fun f =>
      if f = "a" then some (docA, []) else if f = "b" then some (docB, []) else Option.none }

/-- The identity triple of a finding: check id, resource id, line range. -/
def tripleOf (r : Record) : String × String × (Int × Int) :=
  (r.check_id, r.resource, r.file_line_range)

/-- The identity triple of a report entry. -/
def recTriple (rr : ReportRecord) : String × String × (Int × Int) :=
  tripleOf rr.base

/-- The multiset of identity triples of a report. -/
def reportTriples (rep : Report) : Multiset (String × String × (Int × Int)) :=
  (rep.records.map recTriple : List (String × String × (Int × Int)))

/-- The line range the result loop records for one raw result. -/
def lineRangeOf (env : Env) (result : RawResult) : Int × Int :=
  let se := if pyTruthy result.results_configuration then
      env.getStartEnd 0 result.results_configuration 0
    else (0, 0)
  (se.2, se.1 + 1)

/-- The identity triples produced by scanning one loaded file; they depend
only on the file, its document and raw lines, never on the threaded root
folder or the run metadata. -/
def fileScanTriples (env : Env) (d : String × ParseResult) :
    List (String × String × (Int × Int)) :=
  (env.scan d.1 d.2.1 (env.suppressions d.2.2)).filterMap (fun kr =>
    kr.2.check.map (fun check =>
      (check.id, get_resource d.1 kr.1 check.supported_entities, lineRangeOf env kr.2)))

/-- The candidate paths contributed by the directory walk. -/
def rootFiles (env : Env) (root_folder : Option String) : List String :=
  if optStrTruthy root_folder then
    match root_folder with
    | some root => (env.walkFiles root).flatMap (fun rf => rf.2.map (env.joinPath rf.1))
    | Option.none => []
  else []

/-- Every candidate path the load phase dispatches to the parser. -/
def allCandidates (env : Env) (root_folder : Option String)
    (files : List String) : List String :=
  (if listTruthy files then files else []) ++ rootFiles env root_folder

/-- C4: for every parsed pipeline document whose jobs mapping is the ordered
key sequence build, START_LINE 3, END_LINE 5, test, START_LINE 7, END_LINE 9,
the job extractor attributes START_LINE 3 and END_LINE 5 to build and
START_LINE 7 and END_LINE 9 to test: each line-marker key goes to the most
recently started named unit. -/
theorem C4_get_jobs_attributes_markers_to_latest_unit
    (es : List (PyKey × PyVal))
    (h : pyLookup es (.str "jobs") = some (.dict sampleJobs)) :
    get_jobs (.dict es) =
      .ok [(.str "build", [(START_LINE, .int 3), (END_LINE, .int 5)]),
           (.str "test", [(START_LINE, .int 7), (END_LINE, .int 9)])] := by
  have hg : pyGetMethod (.dict es) (.str "jobs") = .ok (.dict sampleJobs) := by
    simp [pyGetMethod, h]
  simp only [get_jobs, bind, Except.bind, hg]
  rfl

/-- C4 witness: the theorem applied to a document holding exactly that jobs
mapping. -/
theorem C4_witness :
    get_jobs (.dict [(.str "jobs", .dict sampleJobs)]) =
      .ok [(.str "build", [(START_LINE, .int 3), (END_LINE, .int 5)]),
           (.str "test", [(START_LINE, .int 7), (END_LINE, .int 9)])] :=
  C4_get_jobs_attributes_markers_to_latest_unit _ rfl

/-- C6: the trigger extractor returns exactly the keys of the sub-mapping
under the always-true top-level key minus the two reserved line markers,
and the empty set when that key is absent. -/
theorem C6_get_triggers_keys_minus_markers (es : List (PyKey × PyVal)) :
    (∀ sub, pyLookup es (.bool true) = some (.dict sub) →
      get_triggers (.dict es) =
        .ok (((sub.map Prod.fst).filter (fun k => !isMarker k)).toFinset)) ∧
    (pyLookup es (.bool true) = Option.none → get_triggers (.dict es) = .ok ∅) := by
  constructor
  · intro sub hsub
    have hg : pyGetMethod (.dict es) (.bool true) = .ok (.dict sub) := by
      simp [pyGetMethod, hsub]
    simp only [get_triggers, bind, Except.bind, hg]
    cases sub with
    | nil => rfl
    | cons a rest => rfl
  · intro habs
    have hg : pyGetMethod (.dict es) (.bool true) = .ok .none := by
      simp [pyGetMethod, habs]
    simp only [get_triggers, bind, Except.bind, hg]
    rfl

/-- C6 witness: on the document with `true` mapped to a push trigger plus the
two line markers the extracted set is exactly the push key, and on the empty
document the extracted set is empty. -/
theorem C6_witness :
    (get_triggers (.dict [(.bool true, .dict [(.str "push", .dict []),
        (.str START_LINE, .int 1), (.str END_LINE, .int 2)])]) =
      .ok ((([(PyKey.str "push", PyVal.dict []),
        (PyKey.str START_LINE, PyVal.int 1),
        (PyKey.str END_LINE, PyVal.int 2)].map Prod.fst).filter
          (fun k => !isMarker k)).toFinset)) ∧
    get_triggers (.dict []) = .ok ∅ :=
  ⟨(C6_get_triggers_keys_minus_markers _).1 _ rfl,
   (C6_get_triggers_keys_minus_markers []).2 rfl⟩

/-- C7 counterexample: on a document that is a list rather than a mapping
(the parser interface allows both), the lookup of the always-true key raises
an AttributeError before the try block is entered, so the exception
propagates out of the trigger extractor instead of yielding the empty set. -/
theorem C7_counterexample :
    get_triggers (PyVal.list []) = .error "AttributeError" := rfl

/-- C7 (amended): for every document that is a mapping, the trigger extractor
returns normally, and whenever the derivation step inside the try block
raises, the caught exception degrades the result to the empty set; only the
pre-try lookup on a non-mapping document can propagate an exception. -/
theorem C7_mapping_doc_exceptions_caught (es : List (PyKey × PyVal)) :
    ∃ s, get_triggers (.dict es) = .ok s ∧
      (∀ e, triggersDerive ((pyLookup es (.bool true)).getD .none) = .error e →
        s = ∅) := by
  simp only [get_triggers, bind, Except.bind, pyGetMethod]
  cases htd : triggersDerive ((pyLookup es (.bool true)).getD .none) with
  | ok s =>
    refine ⟨s, rfl, ?_⟩
    intro e he
    cases he
  | error e => exact ⟨∅, rfl, fun _ _ => rfl⟩

/-- C7 witness: the amended theorem applied to a document whose always-true
entry is a truthy non-mapping, the case where the try block catches an
AttributeError from the keys call. -/
theorem C7_witness :
    ∃ s, get_triggers (.dict [(.bool true, .str "push")]) = .ok s ∧
      (∀ e, triggersDerive ((pyLookup [(PyKey.bool true, PyVal.str "push")]
          (.bool true)).getD .none) = .error e → s = ∅) :=
  C7_mapping_doc_exceptions_caught _

/-- C9 counterexample: a jobs mapping whose first key is a line marker makes
the job extractor raise a KeyError (the empty cursor names no unit), rather
than completing with the marker treated as a no-op. -/
theorem C9_counterexample :
    get_jobs (.dict [(.str "jobs", .dict [(.str START_LINE, .int 3)])]) =
      .error "KeyError" := rfl

/-- C9 (amended): for every jobs mapping in which a line-marker key appears
before any named unit key, the job extractor raises an uncaught KeyError:
the marker is not a no-op and the extractor does not complete. -/
theorem C9_leading_marker_raises_keyerror
    (es rest : List (PyKey × PyVal)) (k : PyKey) (v : PyVal)
    (hjobs : pyLookup es (.str "jobs") = some (.dict ((k, v) :: rest)))
    (hk : isMarker k = true) :
    get_jobs (.dict es) = .error "KeyError" := by
  have hg : pyGetMethod (.dict es) (.str "jobs") = .ok (.dict ((k, v) :: rest)) := by
    simp [pyGetMethod, hjobs]
  simp only [get_jobs, bind, Except.bind, hg]
  simp [pyTruthy, jobsLoop, hk, pyDictUpdate]

/-- C9 witness: the amended theorem applied to a jobs mapping starting with
an END_LINE marker. -/
theorem C9_witness :
    get_jobs (.dict [(.str "jobs", .dict [(.str END_LINE, .int 8),
      (.str "deploy", .dict [])])]) = .error "KeyError" :=
  C9_leading_marker_raises_keyerror _ [(.str "deploy", .dict [])] _ _ rfl rfl

/-- On a line-number-aligned file of at least seven lines, the slice taken
for a violation at lines 4 to 6 carries the source line numbers 4 to 7. -/
theorem pySlice_three_seven_map_fst (raw : List RawLine) (hlen : 7 ≤ raw.length)
    (halign : ∀ (i : Nat) (h : i < raw.length), (raw[i]).1 = (i : Int) + 1) :
    (pySlice raw 3 7).map Prod.fst = [4, 5, 6, 7] := by
  have h3 : pySliceIdx raw.length 3 = 3 := by
    simp only [pySliceIdx]
    norm_num
    omega
  have h7 : pySliceIdx raw.length 7 = 7 := by
    simp only [pySliceIdx]
    norm_num
    omega
  have hform : pySlice raw 3 7 = (raw.take 7).drop 3 := by
    simp [pySlice, h3, h7]
  rw [hform]
  apply List.ext_getElem
  · simp
    omega
  · intro i h1 h2
    simp only [List.getElem_map, List.getElem_drop, List.getElem_take]
    have hi : i < 4 := by
      simp at h1
      omega
    have := halign (3 + i) (by omega)
    interval_cases i <;> simp_all

/-- The slice for the `(0, 0)` fallback, `raw[-1:1]`, is empty or the first
line only. -/
theorem pySlice_neg_one_one (raw : List RawLine) :
    pySlice raw (-1) 1 = [] ∨ pySlice raw (-1) 1 = raw.take 1 := by
  match raw with
  | [] => left; rfl
  | [x] => right; rfl
  | x :: y :: t =>
    left
    show (((x :: y :: t).take (pySliceIdx (t.length + 2) 1)).drop
      (pySliceIdx (t.length + 2) (-1))) = []
    have hb : pySliceIdx (t.length + 2) 1 = 1 := by simp [pySliceIdx]
    have ha : pySliceIdx (t.length + 2) (-1) = t.length + 1 := by
      simp [pySliceIdx]
      omega
    rw [hb, ha]
    apply List.drop_eq_nil_of_le
    simp

/-- C2 counterexample: for a violation resolved to lines 4 to 6 on a
seven-line file, the emitted record has line range (4, 7) but its snippet
carries the source line numbers 4 to 7, not 3 to 7: the slice
`raw[start - 1 : end + 1]` on 1-based-aligned lines pads one line after the
violation and none before it. -/
theorem C2_counterexample :
    ((build_record envFourSix "f" rawSeven Option.none "k" resWithCfg).1.map
      (fun r => (r.file_line_range, r.code_block.map Prod.fst))) =
      some ((4, 7), [4, 5, 6, 7]) ∧
    ([4, 5, 6, 7] : List Int) ≠ [3, 4, 5, 6, 7] := by
  constructor
  · rfl
  · decide

/-- C2 (amended): for every raw check result whose resolved lines are
(4, 6) on a line-aligned file of at least seven lines, the emitted record
has line range (4, 7) and its snippet is the slice spanning source lines 4
to 7 (one line of pad after the violation, none before). -/
theorem C2_line_range_and_snippet (env : Env) (fp : String) (raw : List RawLine)
    (root : Option String) (key : String) (result : RawResult) (check : CheckInfo)
    (hc : result.check = some check)
    (hcfg : pyTruthy result.results_configuration = true)
    (hse : env.getStartEnd 0 result.results_configuration 0 = (6, 4))
    (hlen : 7 ≤ raw.length)
    (halign : ∀ (i : Nat) (h : i < raw.length), (raw[i]).1 = (i : Int) + 1) :
    ∃ r root', build_record env fp raw root key result = (some r, root') ∧
      r.file_line_range = (4, 7) ∧ r.code_block.map Prod.fst = [4, 5, 6, 7] := by
  simp only [build_record, hc, hcfg, if_true, hse]
  refine ⟨_, _, rfl, rfl, ?_⟩
  have : ((4 : Int) - 1) = 3 := by norm_num
  rw [this]
  have : ((6 : Int) + 1) = 7 := by norm_num
  rw [this]
  exact pySlice_three_seven_map_fst raw hlen halign

/-- C2 witness: the amended theorem at the concrete seven-line file. -/
theorem C2_witness :
    ∃ r root', build_record envFourSix "f" rawSeven Option.none "k" resWithCfg =
      (some r, root') ∧
      r.file_line_range = (4, 7) ∧ r.code_block.map Prod.fst = [4, 5, 6, 7] :=
  C2_line_range_and_snippet envFourSix "f" rawSeven Option.none "k" resWithCfg
    sampleCheck rfl rfl rfl (by decide) (by decide)

/-- C3: a raw check result with no location substructure resolves to
(0, 0), the emitted record has line range (0, 1), and its snippet is empty
or exactly the first available raw line, for files of every length. -/
theorem C3_missing_config_clamps (env : Env) (fp : String) (raw : List RawLine)
    (root : Option String) (key : String) (result : RawResult) (check : CheckInfo)
    (hc : result.check = some check)
    (hcfg : result.results_configuration = PyVal.none) :
    ∃ r root', build_record env fp raw root key result = (some r, root') ∧
      r.file_line_range = (0, 1) ∧
      (r.code_block = [] ∨ r.code_block = raw.take 1) := by
  simp only [build_record, hc, hcfg]
  refine ⟨_, _, rfl, rfl, ?_⟩
  have h1 : ((0 : Int) - 1) = -1 := by norm_num
  have h2 : ((0 : Int) + 1) = 1 := by norm_num
  simp only [pyTruthy, Bool.false_eq_true, if_false, h1, h2]
  exact pySlice_neg_one_one raw

/-- C3 witness: the theorem at a one-line file, where the snippet is the
first line. -/
theorem C3_witness :
    ∃ r root', build_record baseEnv "f" [((1 : Int), "a")] Option.none "k" resNoCfg =
      (some r, root') ∧
      r.file_line_range = (0, 1) ∧
      (r.code_block = [] ∨ r.code_block = [((1 : Int), "a")].take 1) :=
  C3_missing_config_clamps baseEnv "f" _ Option.none "k" resNoCfg sampleCheck rfl rfl

/-- C5: a raw check result without a resolvable check object is skipped
silently: the per-file result loop yields exactly the output it yields with
that result removed, so all other results are processed unchanged and the
report is unaffected. -/
theorem C5_missing_check_skipped (env : Env) (ct : String) (meta : GhaMeta)
    (fp : String) (raw : List RawLine) (root : Option String)
    (rs1 rs2 : List (String × RawResult)) (key : String) (result : RawResult)
    (hc : result.check = Option.none) :
    scan_file env ct meta fp raw root (rs1 ++ (key, result) :: rs2) =
      scan_file env ct meta fp raw root (rs1 ++ rs2) := by
  induction rs1 generalizing root with
  | nil =>
    simp only [List.nil_append]
    simp [scan_file, build_record, hc]
  | cons p rs ih =>
    obtain ⟨k, r⟩ := p
    simp only [List.cons_append, scan_file]
    cases hbr : build_record env fp raw root k r with
    | mk orec root' =>
      cases orec with
      | none => simp [ih root']
      | some rec0 => simp [ih root']

/-- C5 witness: the theorem applied with one checkless result between two
ordinary results. -/
theorem C5_witness :
    scan_file baseEnv "ct" initMeta "f" [] Option.none
        ([("a", resNoCfg)] ++ ("b", resNoCheck) :: [("c", resNoCfg)]) =
      scan_file baseEnv "ct" initMeta "f" [] Option.none
        ([("a", resNoCfg)] ++ [("c", resNoCfg)]) :=
  C5_missing_check_skipped baseEnv "ct" initMeta "f" [] Option.none
    [("a", resNoCfg)] [("c", resNoCfg)] "b" resNoCheck rfl

/-- C8: the run entry point short-circuits to an empty report (not an
error) when neither a root folder nor a file list is given, and when
external checks are required but none are configured; in both cases no
parsing or scanning happens. -/
theorem C8_empty_report_guards (sched : Schedule) (env : Env) (ct : String)
    (req : Bool) (root : Option String) (ext : List String) (files : List String) :
    (listTruthy files = false ∧ optStrTruthy root = false →
      run sched env ct req root ext files = .ok ⟨ct, []⟩) ∧
    (req = true ∧ listTruthy ext = false →
      run sched env ct req root ext files = .ok ⟨ct, []⟩) := by
  constructor
  · intro h
    obtain ⟨h1, h2⟩ := h
    simp [run, h1, h2]
  · intro h
    obtain ⟨h1, h2⟩ := h
    by_cases h3 : (!listTruthy files && !optStrTruthy root) = true
    · simp [run, h3]
    · simp [run, h3, h1, h2]

/-- C8 witness: an invocation with nothing to scan, and an invocation with
inputs but no configured external checks, both yield the empty report. -/
theorem C8_witness :
    run id baseEnv "ct" true Option.none [] [] = .ok ⟨"ct", []⟩ ∧
    run id baseEnv "ct" true (some "/r") [] ["f"] = .ok ⟨"ct", []⟩ :=
  ⟨(C8_empty_report_guards id baseEnv "ct" true Option.none [] []).1 ⟨rfl, rfl⟩,
   (C8_empty_report_guards id baseEnv "ct" true (some "/r") [] ["f"]).2 ⟨rfl, rfl⟩⟩

/-- The loader loop splits over list append. -/
theorem load_loop_append (ct : String) (l1 l2 : List (String × Option ParseResult))
    (st : LoadState) :
    load_loop ct (l1 ++ l2) st =
      Except.bind (load_loop ct l1 st) (fun s => load_loop ct l2 s) := by
  induction l1 generalizing st with
  | nil => rfl
  | cons p rest ih =>
    obtain ⟨f, orr⟩ := p
    cases orr with
    | none => simpa [load_loop] using ih st
    | some res =>
      show Except.bind (processParsed ct st f res) _ = _
      cases hp : processParsed ct st f res with
      | ok stm => simpa [Except.bind, bind, load_loop, hp] using ih stm
      | error e => simp [Except.bind, bind, load_loop, hp]

/-- The loader loop skips results of files that failed to parse. -/
theorem load_loop_all_failed (ct : String) (l : List (String × Option ParseResult))
    (st : LoadState) (h : ∀ p ∈ l, p.2 = Option.none) :
    load_loop ct l st = .ok st := by
  induction l with
  | nil => rfl
  | cons p rest ih =>
    obtain ⟨f, orr⟩ := p
    have hp : orr = Option.none := h (f, orr) (by simp)
    subst hp
    exact ih (fun q hq => h q (by simp [hq]))

/-- Processing one successfully parsed file in the pipeline family records
exactly the metadata extracted from that document. -/
theorem processParsed_meta (st st' : LoadState) (f : String) (res : ParseResult)
    (h : processParsed GITHUB_ACTIONS st f res = .ok st') :
    pyGetMethod res.1 (.str "name") = .ok st'.meta.workflow_name ∧
    (∃ js, get_jobs res.1 = .ok js ∧ st'.meta.jobs = some js) ∧
    (∃ tr, get_triggers res.1 = .ok tr ∧ st'.meta.triggers = some tr) := by
  cases hn : pyGetMethod res.1 (.str "name") with
  | error e =>
    exfalso
    have hfull : processParsed GITHUB_ACTIONS st f res = .error e := by
      simp [processParsed, hn, Except.bind, bind]
    rw [hfull] at h
    cases h
  | ok nm =>
    cases hj : get_jobs res.1 with
    | error e =>
      exfalso
      have hfull : processParsed GITHUB_ACTIONS st f res = .error e := by
        simp [processParsed, hn, hj, Except.bind, bind]
      rw [hfull] at h
      cases h
    | ok js =>
      cases ht : get_triggers res.1 with
      | error e =>
        exfalso
        have hfull : processParsed GITHUB_ACTIONS st f res = .error e := by
          simp [processParsed, hn, hj, ht, Except.bind, bind]
        rw [hfull] at h
        cases h
      | ok tr =>
        have hfull : processParsed GITHUB_ACTIONS st f res =
            .ok { definitions := pyDictSet st.definitions f res,
                  meta := ⟨nm, some js, some tr⟩ } := by
          simp [processParsed, hn, hj, ht, Except.bind, bind, pure, Except.pure]
        rw [hfull] at h
        injection h with h2
        subst h2
        exact ⟨rfl, ⟨js, rfl, rfl⟩, ⟨tr, rfl, rfl⟩⟩

/-- C1 counterexample: two pipeline files parse successfully, named A and
then B; after loading, the recorded workflow name is B, taken from the
last successfully parsed document encountered, while the claim requires A,
the first one. -/
theorem C1_counterexample :
    (load_files id envTwoDocs GITHUB_ACTIONS ["a", "b"] ⟨[], initMeta⟩
        Option.none).toOption.map (fun st => st.meta.workflow_name) =
      some (.str "B") ∧
    PyVal.str "B" ≠ PyVal.str "A" := by
  constructor
  · rfl
  · simp

/-- C1 (amended): after _load_files completes on the pipeline family, the
recorded run metadata (workflow name, jobs, triggers) equals the metadata
extracted from the last successfully parsed document encountered in the
call (here: the successful result after which every remaining result is a
failed parse). -/
theorem C1_metadata_from_last_success (sched : Schedule) (env : Env)
    (files : List String) (st st' : LoadState) (fn : Option (String → String))
    (rs1 rs2 : List (String × Option ParseResult)) (f : String) (res : ParseResult)
    (hsched : loadResults sched env files fn = rs1 ++ (f, some res) :: rs2)
    (htail : ∀ p ∈ rs2, p.2 = Option.none)
    (hok : load_files sched env GITHUB_ACTIONS files st fn = .ok st') :
    pyGetMethod res.1 (.str "name") = .ok st'.meta.workflow_name ∧
    (∃ js, get_jobs res.1 = .ok js ∧ st'.meta.jobs = some js) ∧
    (∃ tr, get_triggers res.1 = .ok tr ∧ st'.meta.triggers = some tr) := by
  unfold load_files at hok
  rw [hsched, load_loop_append] at hok
  cases h1 : load_loop GITHUB_ACTIONS rs1 st with
  | error e =>
    rw [h1] at hok
    cases hok
  | ok stm =>
    rw [h1] at hok
    simp only [Except.bind] at hok
    have hstep : load_loop GITHUB_ACTIONS ((f, some res) :: rs2) stm =
        Except.bind (processParsed GITHUB_ACTIONS stm f res)
          (fun s => load_loop GITHUB_ACTIONS rs2 s) := rfl
    rw [hstep] at hok
    cases h2 : processParsed GITHUB_ACTIONS stm f res with
    | error e =>
      rw [h2] at hok
      cases hok
    | ok stp =>
      rw [h2] at hok
      simp only [Except.bind] at hok
      rw [load_loop_all_failed _ _ _ htail] at hok
      injection hok with h3
      subst h3
      exact processParsed_meta stm stp f res h2

/-- C1 witness: the amended theorem at the two-document scenario, where b
is the last successfully parsed file. -/
theorem C1_witness :
    pyGetMethod (docB, ([] : List RawLine)).1 (.str "name") =
      .ok (LoadState.meta ⟨[("a", (docA, [])), ("b", (docB, []))],
        ⟨.str "B", some [], some ∅⟩⟩).workflow_name ∧
    (∃ js, get_jobs (docB, ([] : List RawLine)).1 = .ok js ∧
      (LoadState.meta ⟨[("a", (docA, [])), ("b", (docB, []))],
        ⟨.str "B", some [], some ∅⟩⟩).jobs = some js) ∧
    (∃ tr, get_triggers (docB, ([] : List RawLine)).1 = .ok tr ∧
      (LoadState.meta ⟨[("a", (docA, [])), ("b", (docB, []))],
        ⟨.str "B", some [], some ∅⟩⟩).triggers = some tr) :=
  C1_metadata_from_last_success id envTwoDocs ["a", "b"] ⟨[], initMeta⟩
    ⟨[("a", (docA, [])), ("b", (docB, []))], ⟨.str "B", some [], some ∅⟩⟩
    Option.none [("a", some (docA, []))] [] "b" (docB, [])
    rfl (by simp) rfl

/-- Keys after a dict assignment: the assigned key plus the previous keys. -/
theorem pyDictSet_mem_keys {κ α : Type} [DecidableEq κ] (d : List (κ × α))
    (k : κ) (v : α) (f : κ) :
    (f ∈ (pyDictSet d k v).map Prod.fst ↔ f = k ∨ f ∈ d.map Prod.fst) := by
  induction d with
  | nil => simp [pyDictSet]
  | cons p rest ih =>
    obtain ⟨k', v'⟩ := p
    by_cases h : k' = k
    · subst h
      simp [pyDictSet]
    · simp [pyDictSet, h, ih]
      tauto

/-- A dict assignment preserves key uniqueness. -/
theorem pyDictSet_nodup_keys {κ α : Type} [DecidableEq κ] (d : List (κ × α))
    (k : κ) (v : α) (h : (d.map Prod.fst).Nodup) :
    ((pyDictSet d k v).map Prod.fst).Nodup := by
  induction d with
  | nil => simp [pyDictSet]
  | cons p rest ih =>
    obtain ⟨k', v'⟩ := p
    simp only [List.map_cons, List.nodup_cons] at h
    by_cases hk : k' = k
    · subst hk
      simpa [pyDictSet] using h
    · simp only [pyDictSet, if_neg hk, List.map_cons, List.nodup_cons]
      refine ⟨?_, ih h.2⟩
      intro hmem
      rcases (pyDictSet_mem_keys rest k v k').1 hmem with h1 | h1
      · exact hk h1
      · exact h.1 h1

/-- Entries after a dict assignment come from the assignment or from the
previous dict. -/
theorem pyDictSet_mem_elem {κ α : Type} [DecidableEq κ] (d : List (κ × α))
    (k : κ) (v : α) (p : κ × α) :
    p ∈ pyDictSet d k v → p = (k, v) ∨ p ∈ d := by
  induction d with
  | nil =>
    intro h
    simpa [pyDictSet] using h
  | cons q rest ih =>
    obtain ⟨k', v'⟩ := q
    intro h
    by_cases hk : k' = k
    · subst hk
      simp only [pyDictSet, if_true, List.mem_cons] at h
      rcases h with h | h
      · exact Or.inl h
      · exact Or.inr (List.mem_cons_of_mem _ h)
    · simp only [pyDictSet, if_neg hk, List.mem_cons] at h
      rcases h with h | h
      · exact Or.inr (by simp [h])
      · rcases ih h with h1 | h1
        · exact Or.inl h1
        · exact Or.inr (List.mem_cons_of_mem _ h1)

/-- Processing one parsed file stores it under its path, whatever the
document family. -/
theorem processParsed_defs (ct : String) (st : LoadState) (f : String)
    (res : ParseResult) (stp : LoadState)
    (h : processParsed ct st f res = .ok stp) :
    stp.definitions = pyDictSet st.definitions f res := by
  by_cases hct : ct = GITHUB_ACTIONS
  · subst hct
    cases hn : pyGetMethod res.1 (.str "name") with
    | error e =>
      have hfull : processParsed GITHUB_ACTIONS st f res = .error e := by
        simp [processParsed, hn, Except.bind, bind]
      rw [hfull] at h
      cases h
    | ok nm =>
      cases hj : get_jobs res.1 with
      | error e =>
        have hfull : processParsed GITHUB_ACTIONS st f res = .error e := by
          simp [processParsed, hn, hj, Except.bind, bind]
        rw [hfull] at h
        cases h
      | ok js =>
        cases ht : get_triggers res.1 with
        | error e =>
          have hfull : processParsed GITHUB_ACTIONS st f res = .error e := by
            simp [processParsed, hn, hj, ht, Except.bind, bind]
          rw [hfull] at h
          cases h
        | ok tr =>
          have hfull : processParsed GITHUB_ACTIONS st f res =
              .ok { definitions := pyDictSet st.definitions f res,
                    meta := ⟨nm, some js, some tr⟩ } := by
            simp [processParsed, hn, hj, ht, Except.bind, bind, pure, Except.pure]
          rw [hfull] at h
          injection h with h2
          subst h2
          rfl
  · have hfull : processParsed ct st f res =
        .ok { st with definitions := pyDictSet st.definitions f res } := by
      simp [processParsed, hct, pure, Except.pure]
    rw [hfull] at h
    injection h with h2
    subst h2
    rfl

/-- In an association whose values are determined by a partial function of
the key, membership of a pair reduces to key membership. -/
theorem assoc_mem_iff {κ α : Type} (d : List (κ × α)) (P : κ → Option α)
    (hdefs : ∀ p ∈ d, P p.1 = some p.2) (k : κ) (v : α) :
    ((k, v) ∈ d ↔ k ∈ d.map Prod.fst ∧ P k = some v) := by
  constructor
  · intro h
    exact ⟨List.mem_map_of_mem _ h, hdefs _ h⟩
  · rintro ⟨hk, hP⟩
    obtain ⟨⟨k', v'⟩, hmem, hfst⟩ := List.mem_map.1 hk
    dsimp at hfst
    subst hfst
    have hv := hdefs _ hmem
    dsimp at hv
    rw [hP] at hv
    injection hv with hv2
    subst hv2
    exact hmem

/-- Main loader-loop characterization: when the loop succeeds, the stored
values are determined by the parser, the keys stay unique, and a path is a
key exactly when it was already one or its parse result in this batch was a
success. -/
theorem load_loop_defs_char (env : Env) (ct : String)
    (entries : List (String × Option ParseResult)) :
    ∀ st st' : LoadState,
    load_loop ct entries st = .ok st' →
    (∀ p ∈ entries, p.2 = env.parse p.1) →
    (∀ p ∈ st.definitions, env.parse p.1 = some p.2) →
    (st.definitions.map Prod.fst).Nodup →
    (∀ p ∈ st'.definitions, env.parse p.1 = some p.2) ∧
    (st'.definitions.map Prod.fst).Nodup ∧
    (∀ f, f ∈ st'.definitions.map Prod.fst ↔
      f ∈ st.definitions.map Prod.fst ∨
        (f ∈ entries.map Prod.fst ∧ (env.parse f).isSome = true)) := by
  induction entries with
  | nil =>
    intro st st' hok hdet hdefs hnd
    have h : st = st' := by simpa [load_loop] using hok
    subst h
    exact ⟨hdefs, hnd, fun f => by simp⟩
  | cons p rest ih =>
    obtain ⟨f0, orr⟩ := p
    intro st st' hok hdet hdefs hnd
    cases orr with
    | none =>
      have hparse : env.parse f0 = Option.none :=
        (hdet (f0, Option.none) (List.mem_cons_self _ _)).symm
      have hok' : load_loop ct rest st = .ok st' := hok
      obtain ⟨a, b, c⟩ :=
        ih st st' hok' (fun q hq => hdet q (List.mem_cons_of_mem _ hq)) hdefs hnd
      refine ⟨a, b, fun f => ?_⟩
      rw [c f]
      simp only [List.map_cons, List.mem_cons]
      constructor
      · rintro (h | ⟨h1, h2⟩)
        · exact Or.inl h
        · exact Or.inr ⟨Or.inr h1, h2⟩
      · rintro (h | ⟨h1 | h1, h2⟩)
        · exact Or.inl h
        · rw [h1, hparse] at h2
          simp at h2
        · exact Or.inr ⟨h1, h2⟩
    | some res =>
      have hparse : env.parse f0 = some res :=
        (hdet (f0, some res) (List.mem_cons_self _ _)).symm
      have hstep : load_loop ct ((f0, some res) :: rest) st =
          Except.bind (processParsed ct st f0 res)
            (fun s => load_loop ct rest s) := rfl
      rw [hstep] at hok
      cases hp : processParsed ct st f0 res with
      | error e =>
        rw [hp] at hok
        simp [Except.bind] at hok
      | ok stp =>
        rw [hp] at hok
        simp only [Except.bind] at hok
        have hdstp : stp.definitions = pyDictSet st.definitions f0 res :=
          processParsed_defs ct st f0 res stp hp
        have hdefs' : ∀ p ∈ stp.definitions, env.parse p.1 = some p.2 := by
          rw [hdstp]
          intro p hp2
          rcases pyDictSet_mem_elem _ _ _ _ hp2 with h1 | h1
          · rw [h1]
            exact hparse
          · exact hdefs _ h1
        have hnd' : (stp.definitions.map Prod.fst).Nodup := by
          rw [hdstp]
          exact pyDictSet_nodup_keys _ _ _ hnd
        obtain ⟨a, b, c⟩ :=
          ih stp st' hok (fun q hq => hdet q (List.mem_cons_of_mem _ hq)) hdefs' hnd'
        refine ⟨a, b, fun f => ?_⟩
        rw [c f, hdstp]
        constructor
        · rintro (hmem | ⟨h1, h2⟩)
          · rcases (pyDictSet_mem_keys st.definitions f0 res f).1 hmem with h1 | h1
            · subst h1
              exact Or.inr ⟨by simp, by rw [hparse]; rfl⟩
            · exact Or.inl h1
          · exact Or.inr ⟨List.mem_cons_of_mem _ h1, h2⟩
        · rintro (h | ⟨h1, h2⟩)
          · exact Or.inl ((pyDictSet_mem_keys _ _ _ _).2 (Or.inr h))
          · rcases List.mem_cons.1 h1 with h3 | h3
            · subst h3
              exact Or.inl ((pyDictSet_mem_keys _ _ _ _).2 (Or.inl rfl))
            · exact Or.inr ⟨h3, h2⟩

/-- `_load_files` characterization: one call adds as keys exactly the
transformed candidate paths whose parse succeeds, for every permutation
the parallel runner may deliver. -/
theorem load_files_char (sched : Schedule) (env : Env) (ct : String)
    (fl : List String) (st st' : LoadState) (fn : Option (String → String))
    (hok : load_files sched env ct fl st fn = .ok st')
    (hsched : ∀ l, (sched l).Perm l)
    (hdefs : ∀ p ∈ st.definitions, env.parse p.1 = some p.2)
    (hnd : (st.definitions.map Prod.fst).Nodup) :
    (∀ p ∈ st'.definitions, env.parse p.1 = some p.2) ∧
    (st'.definitions.map Prod.fst).Nodup ∧
    (∀ f, f ∈ st'.definitions.map Prod.fst ↔
      f ∈ st.definitions.map Prod.fst ∨
        (f ∈ fl.map (applyFn fn) ∧ (env.parse f).isSome = true)) := by
  simp only [load_files, loadResults] at hok
  have hperm := hsched ((fl.map (applyFn fn)).map (fun f => (f, env.parse f)))
  have hdet : ∀ p ∈ sched ((fl.map (applyFn fn)).map (fun f => (f, env.parse f))),
      p.2 = env.parse p.1 := by
    intro p hp2
    have hmem := hperm.mem_iff.1 hp2
    obtain ⟨f, hf, rfl⟩ := List.mem_map.1 hmem
    rfl
  obtain ⟨a, b, c⟩ := load_loop_defs_char env ct _ st st' hok hdet hdefs hnd
  have hkeys :
      ((sched ((fl.map (applyFn fn)).map (fun f => (f, env.parse f)))).map
        Prod.fst).Perm (fl.map (applyFn fn)) := by
    have h2 := hperm.map Prod.fst
    simpa using h2
  refine ⟨a, b, fun f => ?_⟩
  rw [c f]
  constructor
  · rintro (h | ⟨h1, h2⟩)
    · exact Or.inl h
    · exact Or.inr ⟨hkeys.mem_iff.1 h1, h2⟩
  · rintro (h | ⟨h1, h2⟩)
    · exact Or.inl h
    · exact Or.inr ⟨hkeys.mem_iff.2 h1, h2⟩

/-- The directory-walk fold adds as keys exactly the joined walk paths
whose parse succeeds. -/
theorem walk_fold_char (sched : Schedule) (env : Env) (ct : String)
    (dirs : List (String × List String)) :
    ∀ st st' : LoadState,
    dirs.foldlM (fun s rf =>
      load_files sched env ct rf.2 s (some (env.joinPath rf.1))) st = .ok st' →
    (∀ l, (sched l).Perm l) →
    (∀ p ∈ st.definitions, env.parse p.1 = some p.2) →
    (st.definitions.map Prod.fst).Nodup →
    (∀ p ∈ st'.definitions, env.parse p.1 = some p.2) ∧
    (st'.definitions.map Prod.fst).Nodup ∧
    (∀ f, f ∈ st'.definitions.map Prod.fst ↔
      f ∈ st.definitions.map Prod.fst ∨
        (f ∈ dirs.flatMap (fun rf => rf.2.map (env.joinPath rf.1)) ∧
          (env.parse f).isSome = true)) := by
  induction dirs with
  | nil =>
    intro st st' hok hsched hdefs hnd
    have h : st = st' := by simpa [pure, Except.pure] using hok
    subst h
    exact ⟨hdefs, hnd, fun f => by simp⟩
  | cons rf dirs ih =>
    intro st st' hok hsched hdefs hnd
    rw [List.foldlM_cons] at hok
    cases hl : load_files sched env ct rf.2 st (some (env.joinPath rf.1)) with
    | error e =>
      rw [hl] at hok
      simp [bind, Except.bind] at hok
    | ok stm =>
      rw [hl] at hok
      simp only [bind, Except.bind] at hok
      obtain ⟨a1, b1, c1⟩ := load_files_char sched env ct rf.2 st stm _ hl hsched hdefs hnd
      obtain ⟨a, b, c⟩ := ih stm st' hok hsched a1 b1
      refine ⟨a, b, fun f => ?_⟩
      rw [c f, c1 f]
      have happ : applyFn (some (env.joinPath rf.1)) = env.joinPath rf.1 := rfl
      rw [happ]
      simp only [List.flatMap_cons, List.mem_append]
      tauto

/-- Load-phase characterization: after a successful load phase the stored
definitions are exactly the successfully parsed candidate paths, with
parser-determined values and unique keys. -/
theorem loadPhase_char (sched : Schedule) (env : Env) (ct : String)
    (root : Option String) (files : List String) (st' : LoadState)
    (hok : loadPhase sched env ct root files = .ok st')
    (hsched : ∀ l, (sched l).Perm l) :
    (∀ p ∈ st'.definitions, env.parse p.1 = some p.2) ∧
    (st'.definitions.map Prod.fst).Nodup ∧
    (∀ f, f ∈ st'.definitions.map Prod.fst ↔
      f ∈ allCandidates env root files ∧ (env.parse f).isSome = true) := by
  have hempty1 : ∀ p ∈ (⟨[], initMeta⟩ : LoadState).definitions,
      env.parse p.1 = some p.2 := by
    intro p hp
    simp at hp
  have hempty2 : ((⟨[], initMeta⟩ : LoadState).definitions.map Prod.fst).Nodup := by
    simp
  unfold loadPhase at hok
  by_cases hfl : listTruthy files = true
  all_goals simp only [hfl, if_true, if_false, Bool.false_eq_true] at hok
  · cases hA : load_files sched env ct files ⟨[], initMeta⟩ Option.none with
    | error e =>
      rw [hA] at hok
      simp [bind, Except.bind] at hok
    | ok st1 =>
      rw [hA] at hok
      simp only [bind, Except.bind] at hok
      obtain ⟨a1, b1, c1⟩ :=
        load_files_char sched env ct files _ st1 _ hA hsched hempty1 hempty2
      have happid : files.map (applyFn Option.none) = files := by
        have : applyFn Option.none = fun f => f := rfl
        rw [this, List.map_id']
      rw [happid] at c1
      by_cases hrt : optStrTruthy root = true
      · cases root with
        | none => simp [optStrTruthy] at hrt
        | some r =>
          simp only [hrt, if_true] at hok
          obtain ⟨a, b, c⟩ := walk_fold_char sched env ct (env.walkFiles r) st1 st' hok hsched a1 b1
          refine ⟨a, b, fun f => ?_⟩
          rw [c f, c1 f]
          simp only [allCandidates, rootFiles, hfl, hrt, if_true, List.mem_append,
            List.not_mem_nil, List.mem_nil_iff]
          tauto
      · simp only [hrt, Bool.false_eq_true, if_false] at hok
        have h : st1 = st' := by simpa [pure, Except.pure] using hok
        subst h
        refine ⟨a1, b1, fun f => ?_⟩
        rw [c1 f]
        simp only [allCandidates, rootFiles, hfl, hrt, if_true, Bool.false_eq_true,
          if_false, List.append_nil, List.mem_append]
        tauto
  · by_cases hrt : optStrTruthy root = true
    · cases root with
      | none => simp [optStrTruthy] at hrt
      | some r =>
        simp only [hrt, if_true, pure, Except.pure, bind, Except.bind] at hok
        obtain ⟨a, b, c⟩ :=
          walk_fold_char sched env ct (env.walkFiles r) ⟨[], initMeta⟩ st' hok hsched hempty1 hempty2
        refine ⟨a, b, fun f => ?_⟩
        rw [c f]
        simp only [allCandidates, rootFiles, hfl, hrt, if_true, Bool.false_eq_true,
          if_false, List.nil_append, List.mem_append]
        tauto
    · simp only [hrt, Bool.false_eq_true, if_false, pure, Except.pure, bind,
        Except.bind] at hok
      have h : (⟨[], initMeta⟩ : LoadState) = st' := by simpa using hok
      subst h
      refine ⟨hempty1, hempty2, fun f => ?_⟩
      simp [allCandidates, rootFiles, hfl, hrt]

/-- The identity triple of a built record depends only on the check, the
path, the result key and the resolved line range. -/
theorem build_record_triple (env : Env) (fp : String) (raw : List RawLine)
    (root : Option String) (key : String) (result : RawResult) (check : CheckInfo)
    (hc : result.check = some check) :
    ∃ r root', build_record env fp raw root key result = (some r, root') ∧
      tripleOf r =
        (check.id, get_resource fp key check.supported_entities, lineRangeOf env result) := by
  simp only [build_record, hc]
  exact ⟨_, _, rfl, rfl⟩

/-- The triples of the per-file result loop: the threaded root folder, the
run metadata and the family wrapper do not matter. -/
theorem scan_file_triples (env : Env) (ct : String) (meta : GhaMeta)
    (fp : String) (raw : List RawLine) :
    ∀ (root : Option String) (results : List (String × RawResult)),
    (scan_file env ct meta fp raw root results).1.map recTriple =
      results.filterMap (fun kr => kr.2.check.map (fun check =>
        (check.id, get_resource fp kr.1 check.supported_entities,
          lineRangeOf env kr.2))) := by
  intro root results
  induction results generalizing root with
  | nil => rfl
  | cons kr rest ih =>
    obtain ⟨key, result⟩ := kr
    cases hc : result.check with
    | none =>
      have hbr : build_record env fp raw root key result = (Option.none, root) := by
        simp [build_record, hc]
      simp only [scan_file, hbr, List.filterMap_cons, hc, Option.map_none']
      exact ih root
    | some check =>
      obtain ⟨r, root', hbr, htr⟩ := build_record_triple env fp raw root key result check hc
      have hbase : (if ct = GITHUB_ACTIONS then
          ReportRecord.gha r meta.jobs meta.triggers meta.workflow_name
        else ReportRecord.plain r).base = r := by
        by_cases h : ct = GITHUB_ACTIONS <;> simp [h, ReportRecord.base]
      simp only [scan_file, hbr, List.map_cons, List.filterMap_cons, hc, Option.map_some']
      congr 1
      · rw [recTriple, hbase, htr]
      · exact ih root'

/-- The triples of the scan phase: the flat map of the per-file triples
over the loaded definitions, in their stored order. -/
theorem scanPhase_triples (env : Env) (ct : String) (meta : GhaMeta) :
    ∀ (root : Option String) (defs : List (String × ParseResult)),
    (scanPhase env ct meta root defs).map recTriple =
      defs.flatMap (fileScanTriples env) := by
  intro root defs
  induction defs generalizing root with
  | nil => rfl
  | cons d rest ih =>
    obtain ⟨fp, res⟩ := d
    simp only [scanPhase, List.map_append, List.flatMap_cons]
    rw [scan_file_triples]
    congr 1
    exact ih _

/-- C10: two invocations of the run entry point on the same input files,
the same configuration and the same external collaborators, differing only
in the completion order the parallel runner happens to deliver, produce
reports with identical multisets of (check id, resource id, line range)
triples. -/
theorem C10_same_inputs_same_triples (s1 s2 : Schedule) (env : Env)
    (ct : String) (req : Bool) (root : Option String) (ext files : List String)
    (r1 r2 : Report)
    (hs1 : ∀ l, (s1 l).Perm l) (hs2 : ∀ l, (s2 l).Perm l)
    (h1 : run s1 env ct req root ext files = .ok r1)
    (h2 : run s2 env ct req root ext files = .ok r2) :
    reportTriples r1 = reportTriples r2 := by
  unfold run at h1 h2
  by_cases g1 : (!listTruthy files && !optStrTruthy root) = true
  · rw [if_pos g1] at h1 h2
    injection h1 with h1'
    injection h2 with h2'
    rw [← h1', ← h2']
  · rw [if_neg g1] at h1 h2
    by_cases g2 : (!listTruthy ext && req) = true
    · rw [if_pos g2] at h1 h2
      injection h1 with h1'
      injection h2 with h2'
      rw [← h1', ← h2']
    · rw [if_neg g2] at h1 h2
      cases hl1 : loadPhase s1 env ct root files with
      | error e =>
        rw [hl1] at h1
        cases h1
      | ok st1 =>
        cases hl2 : loadPhase s2 env ct root files with
        | error e =>
          rw [hl2] at h2
          cases h2
        | ok st2 =>
          rw [hl1] at h1
          rw [hl2] at h2
          injection h1 with h1'
          injection h2 with h2'
          obtain ⟨d1ok, d1nd, d1k⟩ := loadPhase_char s1 env ct root files st1 hl1 hs1
          obtain ⟨d2ok, d2nd, d2k⟩ := loadPhase_char s2 env ct root files st2 hl2 hs2
          have hperm : st1.definitions.Perm st2.definitions := by
            rw [List.perm_ext_iff_of_nodup (List.Nodup.of_map _ d1nd)
              (List.Nodup.of_map _ d2nd)]
            intro p
            obtain ⟨f, pr⟩ := p
            rw [assoc_mem_iff st1.definitions env.parse d1ok,
                assoc_mem_iff st2.definitions env.parse d2ok, d1k f, d2k f]
          rw [← h1', ← h2']
          unfold reportTriples
          simp only [scanPhase_triples]
          exact Multiset.coe_eq_coe.2 (hperm.flatMap_right _)

/-- C10 witness: the theorem applied to a concrete two-file scan under the
identity completion order and the reversed completion order. -/
theorem C10_witness :
    reportTriples ⟨"ct", []⟩ = reportTriples ⟨"ct", []⟩ :=
  C10_same_inputs_same_triples id List.reverse envTwoDocs "ct" false Option.none []
    ["a", "b"] ⟨"ct", []⟩ ⟨"ct", []⟩ (fun l => List.Perm.refl l)
    (fun l => List.reverse_perm l) rfl rfl

end ObjectRunner
